import Mathlib

set_option linter.unusedSectionVars false

/-
Verification of the Shortcut-Composer pie/slider core against its
natural-language specification.

The Python sources are shallowly embedded: mutable objects become
immutable structures with explicit state passing, Qt side effects
(`repaint`, `accept`, parenting) are dropped, floats become rationals,
and external collaborators (the value controller, the geometry helper
absent from the sources) become function parameters.
-/

namespace ShortcutComposer

/-! ## AnimationProgress (src/shortcut_composer/templates/pie_menu_utils/label.py) -/

/-- State of the two-way steep animation held by every label.
Fields mirror `AnimationProgress._value`, `._speed`, `._steep`. -/
structure AnimationProgress where
  value : ℚ
  speed : ℚ
  steep : ℚ
deriving DecidableEq

/-- Constructor `AnimationProgress.__init__`: value starts at 0 and
speed is `0.004 * Config.get_sleep_time() * speed_scale`.
`Config.get_sleep_time` is outside the given sources, so the sleep time
is taken as an explicit parameter. -/
def mkAnimationProgress (sleep_time speed_scale steep : ℚ) : AnimationProgress :=
  ⟨0, 4 / 1000 * sleep_time * speed_scale, steep⟩

/-- `AnimationProgress.up`: increase the progress, clamped to 1. -/
def AnimationProgress.up (p : AnimationProgress) : AnimationProgress :=
  { p with value := min (p.value + (1 + p.steep - p.value) * p.speed) 1 }

/-- `AnimationProgress.down`: decrease the progress, clamped to 0. -/
def AnimationProgress.down (p : AnimationProgress) : AnimationProgress :=
  { p with value := max (p.value - (p.value + p.steep) * p.speed) 0 }

/-- `AnimationProgress.reset`: arbitrarily set the value to 0. -/
def AnimationProgress.reset (p : AnimationProgress) : AnimationProgress :=
  { p with value := 0 }

/-- One public mutating call on an `AnimationProgress`. -/
inductive AnimOp where
  | up : AnimOp
  | down : AnimOp
  | reset : AnimOp
deriving DecidableEq

/-- Apply one call. -/
def runAnimOp (p : AnimationProgress) : AnimOp → AnimationProgress
  | AnimOp.up => p.up
  | AnimOp.down => p.down
  | AnimOp.reset => p.reset

/-- Apply a finite sequence of calls, oldest first. -/
def runAnimOps (p : AnimationProgress) (ops : List AnimOp) : AnimationProgress :=
  ops.foldl runAnimOp p

/-! ## Label (src/shortcut_composer/templates/pie_menu_utils/label.py) -/

/-- Widget coordinates of a label center (`QPoint`). -/
abbrev Point := ℚ × ℚ

/-- Data representing a single value in the pie widget; mirrors the
`Label` dataclass.  `V` is the opaque value type, `D` the opaque display
token produced by the controller (`QPixmap`/`QIcon`/`Text`). -/
structure Label (V D : Type) where
  value : V
  center : Point := (0, 0)
  angle : ℚ := 0
  displayValue : Option D := none
  prettyName : String := ""
  activationProgress : AnimationProgress := mkAnimationProgress 0 1 1
deriving DecidableEq

/-- `Label.swap_locations`: exchange position data of two labels.
Returns the two updated labels (self first). -/
def Label.swap_locations {V D : Type} (a b : Label V D) : Label V D × Label V D :=
  ({ a with angle := b.angle, center := b.center },
   { b with angle := a.angle, center := a.center })

/-- `Label.__eq__`: two labels are equal iff `value` and `center` agree. -/
def labelEq {V D : Type} [DecidableEq V] (a b : Label V D) : Bool :=
  decide (a.value = b.value) && decide (a.center = b.center)

/-! ## Claims C5 and C6 -/

/-- C5: `up()` sets the value to `min (v + (1 + steep - v) * speed) 1` and
`down()` sets it to `max (v - (v + steep) * speed) 0`, while neither call
touches the speed or the steep parameter. -/
theorem C5_animation_step_formulas (p : AnimationProgress) :
    p.up.value = min (p.value + (1 + p.steep - p.value) * p.speed) 1 ∧
    p.down.value = max (p.value - (p.value + p.steep) * p.speed) 0 ∧
    p.up.speed = p.speed ∧ p.up.steep = p.steep ∧
    p.down.speed = p.speed ∧ p.down.steep = p.steep := by
  refine ⟨rfl, rfl, rfl, rfl, rfl, rfl⟩

/-- One call keeps the value inside `[0, 1]` when speed and steep are
non-negative. -/
lemma runAnimOp_bounds {p : AnimationProgress} (hs : 0 ≤ p.speed)
    (ht : 0 ≤ p.steep) (h0 : 0 ≤ p.value) (h1 : p.value ≤ 1) (op : AnimOp) :
    0 ≤ (runAnimOp p op).value ∧ (runAnimOp p op).value ≤ 1 := by
  cases op with
  | up =>
      constructor
      · have hdiff : 0 ≤ (1 + p.steep - p.value) * p.speed := by
          apply mul_nonneg _ hs
          linarith
        simp only [runAnimOp, AnimationProgress.up, le_min_iff]
        constructor <;> linarith
      · exact min_le_right _ _
  | down =>
      constructor
      · exact le_max_right _ _
      · have hdiff : 0 ≤ (p.value + p.steep) * p.speed := by
          apply mul_nonneg _ hs
          linarith
        simp only [runAnimOp, AnimationProgress.down, max_le_iff]
        constructor <;> linarith
  | reset =>
      simp [runAnimOp, AnimationProgress.reset]

/-- Speed and steep are constants of every call. -/
lemma runAnimOp_const (p : AnimationProgress) (op : AnimOp) :
    (runAnimOp p op).speed = p.speed ∧ (runAnimOp p op).steep = p.steep := by
  cases op <;> exact ⟨rfl, rfl⟩

/-- Bound preservation along a whole call sequence. -/
lemma runAnimOps_bounds {p : AnimationProgress} (hs : 0 ≤ p.speed)
    (ht : 0 ≤ p.steep) (h0 : 0 ≤ p.value) (h1 : p.value ≤ 1)
    (ops : List AnimOp) :
    0 ≤ (runAnimOps p ops).value ∧ (runAnimOps p ops).value ≤ 1 := by
  induction ops generalizing p with
  | nil => exact ⟨h0, h1⟩
  | cons op rest ih =>
      have hb := runAnimOp_bounds hs ht h0 h1 op
      have hc := runAnimOp_const p op
      have := ih (p := runAnimOp p op) (hc.1 ▸ hs) (hc.2 ▸ ht) hb.1 hb.2
      simpa [runAnimOps] using this

/-- C6: starting from a freshly constructed `AnimationProgress` with
non-negative sleep time, speed scale and steep, the value lies in
`[0, 1]` after every finite sequence of `up`, `down` and `reset` calls. -/
theorem C6_animation_value_in_unit_interval
    (sleep_time speed_scale steep : ℚ)
    (hsl : 0 ≤ sleep_time) (hsc : 0 ≤ speed_scale) (hst : 0 ≤ steep)
    (ops : List AnimOp) :
    0 ≤ (runAnimOps (mkAnimationProgress sleep_time speed_scale steep) ops).value ∧
    (runAnimOps (mkAnimationProgress sleep_time speed_scale steep) ops).value ≤ 1 := by
  apply runAnimOps_bounds
  · show 0 ≤ 4 / 1000 * sleep_time * speed_scale
    positivity
  · exact hst
  · exact le_refl 0
  · norm_num [mkAnimationProgress]

/-- Witness for C6 at a concrete construction and call sequence. -/
theorem C6_animation_value_in_unit_interval_witness :
    0 ≤ (runAnimOps (mkAnimationProgress 50 1 1)
          [AnimOp.up, AnimOp.up, AnimOp.down, AnimOp.reset, AnimOp.up]).value ∧
    (runAnimOps (mkAnimationProgress 50 1 1)
          [AnimOp.up, AnimOp.up, AnimOp.down, AnimOp.reset, AnimOp.up]).value ≤ 1 :=
  C6_animation_value_in_unit_interval 50 1 1 (by norm_num) (by norm_num)
    (by norm_num) _

/-! ## Claim C4: the swap exchanges exactly angle and center -/

/-- C4: `swap_locations` exchanges the two labels `angle` and `center`
fields and leaves every other field of both labels (value, display
identity, pretty name, animation progress) unchanged. -/
theorem C4_swap_locations_frame {V D : Type} (a b : Label V D) :
    (a.swap_locations b).1.angle = b.angle ∧
    (a.swap_locations b).1.center = b.center ∧
    (a.swap_locations b).2.angle = a.angle ∧
    (a.swap_locations b).2.center = a.center ∧
    (a.swap_locations b).1.value = a.value ∧
    (a.swap_locations b).1.displayValue = a.displayValue ∧
    (a.swap_locations b).1.prettyName = a.prettyName ∧
    (a.swap_locations b).1.activationProgress = a.activationProgress ∧
    (a.swap_locations b).2.value = b.value ∧
    (a.swap_locations b).2.displayValue = b.displayValue ∧
    (a.swap_locations b).2.prettyName = b.prettyName ∧
    (a.swap_locations b).2.activationProgress = b.activationProgress := by
  refine ⟨rfl, rfl, rfl, rfl, rfl, rfl, rfl, rfl, rfl, rfl, rfl, rfl⟩

/-! ## PieWidget drag reorder
(src/shortcut_composer/templates/pie_menu_utils/pie_widget.py)

The widget state is embedded as the list `self.labels`; the derived
`children_widgets` and `widget_holder` are recreated from it by
`_restart`, so they are represented by the list itself plus the index of
the dragged label.  The geometry collaborator `CirclePoints` is not
under the given sources, so the pointer sample enters as the already
computed `distance` and `angle`, and the point on the circle at a given
angle is an abstract function parameter `poc`. -/

section DragReorder

variable {V D : Type} [DecidableEq V]

/-- Membership test `source_widget.label in self.labels`, which uses
`Label.__eq__` (value and center). -/
def memLabel (src : Label V D) (ls : List (Label V D)) : Bool :=
  ls.any (fun l => labelEq l src)

/-- Modelled from the spec: `CirclePoints.iterate_over_circle` is not
under the given sources; per the spec, `n` candidates are placed at `n`
evenly spaced angles starting at 0, each paired with the point on the
circle at that angle. -/
def restartAux (poc : ℚ → Point) (n : ℕ) : ℕ → List (Label V D) → List (Label V D)
  | _, [] => []
  | i, l :: rest =>
      { l with
        angle := 360 * (i : ℚ) / (n : ℚ),
        center := poc (360 * (i : ℚ) / (n : ℚ)) }
        :: restartAux poc n (i + 1) rest

/-- `PieWidget._restart` composed with `_reset_children`/`_reset_holder`:
rebuild the children and reassign angle and center of every label in
list order. -/
def restart (poc : ℚ → Point) (ls : List (Label V D)) : List (Label V D) :=
  restartAux poc ls.length 0 ls

/-- Circular arc distance between two angles in degrees. -/
def circDist (a b : ℚ) : ℚ := min |a - b| (360 - |a - b|)

/-- Modelled from the spec: `WidgetHolder.on_angle` is not under the
given sources; per the spec it yields the candidate whose stored angle
is angularly closest to the pointer angle, ties broken by lowest index.
Returns the index into the label list. -/
def on_angle (ls : List (Label V D)) (angle : ℚ) : ℕ :=
  (ls.enum.foldl
    (fun best il =>
      if circDist il.2.angle angle < best.2
      then (il.1, circDist il.2.angle angle) else best)
    (0, 100000)).1

/-- Modelled from the spec: `WidgetHolder.swap` is not under the given
sources; per the spec it swaps the two candidates angle and center
pairs, which it does through `Label.swap_locations`. -/
def swap_at (ls : List (Label V D)) (i j : ℕ) : List (Label V D) :=
  match ls.get? i, ls.get? j with
  | some a, some b =>
      ((ls.set i (a.swap_locations b).1).set j (a.swap_locations b).2)
  | _, _ => ls

/-- Tail of `dragMoveEvent` once the dragged label is known to be in the
list at `srcIdx`: locate the widget on the pointer angle and swap unless
it is the dragged widget itself. -/
def dragSwapStep (ls : List (Label V D)) (srcIdx : ℕ) (angle : ℚ) :
    List (Label V D) :=
  if on_angle ls angle = srcIdx then ls else swap_at ls (on_angle ls angle) srcIdx

/-- `PieWidget.dragMoveEvent` for an event whose source is a dragged
`LabelWidget` holding `src`.  `distance` and `angle` are the values of
`self._circle_points.distance(pos)` and `.angle_from_point(pos)`. -/
def dragMoveEvent (poc : ℚ → Point) (deadzone_radius pie_radius : ℚ)
    (labels : List (Label V D)) (src : Label V D) (distance angle : ℚ) :
    List (Label V D) :=
  if distance < deadzone_radius then labels
  else if pie_radius < distance then
    if memLabel src labels
    then restart poc (labels.eraseP (fun l => labelEq l src))
    else labels
  else if memLabel src labels then
    dragSwapStep labels (labels.findIdx (fun l => labelEq l src)) angle
  else
    dragSwapStep (restart poc (labels ++ [src])) labels.length angle

/-- Setting a position to the element it already holds is a no-op. -/

lemma set_get?_self {α : Type} (ls : List α) (i : ℕ) (x : α)
    (h : ls.get? i = some x) : ls.set i x = ls := by
  induction ls generalizing i with
  | nil => simp at h
  | cons a t ih =>
      cases i with
      | zero =>
          simp only [List.get?] at h
          cases h
          simp [List.set]
      | succ k =>
          simp only [List.get?] at h
          simp [List.set, ih k h]

/-- Reassigning angles keeps the value sequence. -/

lemma restartAux_map_value (poc : ℚ → Point) (n : ℕ) :
    ∀ (i : ℕ) (ls : List (Label V D)),
      (restartAux poc n i ls).map Label.value = ls.map Label.value := by
  intro i ls
  induction ls generalizing i with
  | nil => rfl
  | cons l rest ih => simp [restartAux, ih]

/-- `_restart` keeps the value sequence. -/

lemma restart_map_value (poc : ℚ → Point) (ls : List (Label V D)) :
    (restart poc ls).map Label.value = ls.map Label.value :=
  restartAux_map_value poc ls.length 0 ls

/-- The swap keeps the value sequence. -/

lemma swap_at_map_value (ls : List (Label V D)) (i j : ℕ) :
    (swap_at ls i j).map Label.value = ls.map Label.value := by
  unfold swap_at
  cases hi : ls.get? i with
  | none => cases hj : ls.get? j <;> simp [hi, hj]
  | some a =>
      cases hj : ls.get? j with
      | none => simp [hi, hj]
      | some b =>
          simp only [hi, hj]
          have hi2 : (ls.map Label.value).get? i = some a.value := by
            rw [List.get?_map, hi]
            rfl
          have hj2 : (ls.map Label.value).get? j = some b.value := by
            rw [List.get?_map, hj]
            rfl
          have hv1 : Label.value (a.swap_locations b).1 = a.value := rfl
          have hv2 : Label.value (a.swap_locations b).2 = b.value := rfl
          rw [List.map_set, List.map_set, hv1, hv2,
            set_get?_self _ i a.value hi2, set_get?_self _ j b.value hj2]

/-- The swap-or-return tail keeps the value sequence. -/
lemma dragSwapStep_map_value (ls : List (Label V D)) (srcIdx : ℕ) (angle : ℚ) :
    (dragSwapStep ls srcIdx angle).map Label.value = ls.map Label.value := by
  unfold dragSwapStep
  by_cases h : on_angle ls angle = srcIdx
  · simp [h]
  · simp [h, swap_at_map_value]

/-- A label found in the list by `Label.__eq__` contributes its value to
the value sequence. -/
lemma memLabel_value_mem {src : Label V D} {ls : List (Label V D)}
    (h : memLabel src ls = true) : src.value ∈ ls.map Label.value := by
  rcases List.any_eq_true.mp h with ⟨l, hl, heq⟩
  have hv : l.value = src.value := by
    have := (Bool.and_eq_true _ _).mp heq
    exact of_decide_eq_true this.1
  exact List.mem_map.mpr ⟨l, hl, hv⟩

/-- If no label carries the value of `src`, then `src` is not found by
`Label.__eq__`. -/
lemma memLabel_eq_false_of_value_not_mem {src : Label V D}
    {ls : List (Label V D)} (h : src.value ∉ ls.map Label.value) :
    memLabel src ls = false := by
  by_contra hcon
  exact h (memLabel_value_mem (by simpa using hcon))

/-- Removing the dragged label from the list removes exactly its value
from the value sequence, provided values are pairwise distinct. -/
lemma eraseP_labelEq_map_value (src : Label V D) :
    ∀ ls : List (Label V D), (ls.map Label.value).Nodup →
      memLabel src ls = true →
      (ls.eraseP (fun l => labelEq l src)).map Label.value =
        (ls.map Label.value).erase src.value := by
  intro ls
  induction ls with
  | nil => intro _ h; simp [memLabel] at h
  | cons h t ih =>
      intro hnodup hmem
      by_cases hp : labelEq h src = true
      · have hv : h.value = src.value := by
          have := (Bool.and_eq_true _ _).mp hp
          exact of_decide_eq_true this.1
        rw [List.eraseP_cons, hp]
        simp [hv]
      · have hmem2 : memLabel src t = true := by
          rcases List.any_eq_true.mp hmem with ⟨l, hl, heq⟩
          rcases List.mem_cons.mp hl with rfl | hl2
          · exact absurd heq hp
          · exact List.any_eq_true.mpr ⟨l, hl2, heq⟩
        have hnd : (t.map Label.value).Nodup := (List.nodup_cons.mp hnodup).2
        have hne : h.value ≠ src.value := by
          intro hvv
          exact (List.nodup_cons.mp hnodup).1 (hvv ▸ memLabel_value_mem hmem2)
        have hpf : labelEq h src = false := by
          simpa using hp
        rw [List.eraseP_cons, hpf]
        simp only [Bool.cond_false, List.map_cons]
        rw [List.erase_cons_tail (by simpa using hne), ih hnd hmem2]

/-- The deadzone branch of `dragMoveEvent` returns the state untouched. -/
lemma dragMoveEvent_deadzone (poc : ℚ → Point) (dz pr : ℚ)
    (labels : List (Label V D)) (src : Label V D) (distance angle : ℚ)
    (h : distance < dz) :
    dragMoveEvent poc dz pr labels src distance angle = labels := by
  simp [dragMoveEvent, h]

/-- The outer branch of `dragMoveEvent` removes exactly the dragged
value from the value sequence. -/
lemma dragMoveEvent_remove (poc : ℚ → Point) (dz pr : ℚ)
    (labels : List (Label V D)) (src : Label V D) (distance angle : ℚ)
    (hdzpr : dz ≤ pr) (hfar : pr < distance)
    (hmem : memLabel src labels = true)
    (hnodup : (labels.map Label.value).Nodup) :
    (dragMoveEvent poc dz pr labels src distance angle).map Label.value =
      (labels.map Label.value).erase src.value := by
  have hnd : ¬distance < dz := not_lt.mpr (le_trans hdzpr (le_of_lt hfar))
  simp only [dragMoveEvent, if_neg hnd, if_pos hfar, if_pos hmem]
  rw [restart_map_value, eraseP_labelEq_map_value src labels hnodup hmem]

/-- The in-ring branch of `dragMoveEvent` for a dragged label absent
from the list appends exactly its value to the value sequence. -/
lemma dragMoveEvent_insert (poc : ℚ → Point) (dz pr : ℚ)
    (labels : List (Label V D)) (src : Label V D) (distance angle : ℚ)
    (hnear : dz ≤ distance) (hin : distance ≤ pr)
    (hmem : memLabel src labels = false) :
    (dragMoveEvent poc dz pr labels src distance angle).map Label.value =
      labels.map Label.value ++ [src.value] := by
  have hnd : ¬distance < dz := not_lt.mpr hnear
  have hnf : ¬pr < distance := not_lt.mpr hin
  have hmem2 : ¬memLabel src labels = true := by simp [hmem]
  simp only [dragMoveEvent, if_neg hnd, if_neg hnf, if_neg hmem2]
  rw [dragSwapStep_map_value, restart_map_value]
  simp

/-! ## Claims C2 and C3 -/

/-- C2: for a drag-move event sourced by a dragged candidate widget:
inside the deadzone the state is untouched; beyond the pie radius a
dragged member is removed from the value sequence; within the ring a
dragged non-member value is inserted.  The no-duplicate-values invariant
of the candidate set enters the removal part. -/
theorem C2_drag_move_zones (poc : ℚ → Point) (dz pr : ℚ)
    (labels : List (Label V D)) (src : Label V D) (distance angle : ℚ) :
    (distance < dz →
      dragMoveEvent poc dz pr labels src distance angle = labels) ∧
    (dz ≤ pr → pr < distance → memLabel src labels = true →
      (labels.map Label.value).Nodup →
      (dragMoveEvent poc dz pr labels src distance angle).map Label.value =
          (labels.map Label.value).erase src.value ∧
        src.value ∉
          (dragMoveEvent poc dz pr labels src distance angle).map Label.value) ∧
    (dz ≤ distance → distance ≤ pr → memLabel src labels = false →
      (dragMoveEvent poc dz pr labels src distance angle).map Label.value =
        labels.map Label.value ++ [src.value]) := by
  refine ⟨fun h => dragMoveEvent_deadzone poc dz pr labels src distance angle h,
    fun hdzpr hfar hmem hnodup => ?_,
    fun hnear hin hmem =>
      dragMoveEvent_insert poc dz pr labels src distance angle hnear hin hmem⟩
  have heq := dragMoveEvent_remove poc dz pr labels src distance angle
    hdzpr hfar hmem hnodup
  refine ⟨heq, ?_⟩
  rw [heq]
  intro hcon
  exact ((List.Nodup.mem_erase_iff hnodup).mp hcon).1 rfl

/-- C3: dragging a member beyond the outer radius and then back inside
the ring, with no release in between, restores the membership of the
candidate set: the value sequence after both events is a permutation of
the one before. -/
theorem C3_drag_out_and_back_preserves_membership (poc : ℚ → Point)
    (dz pr : ℚ) (labels : List (Label V D)) (src : Label V D)
    (d1 a1 d2 a2 : ℚ) (hdzpr : dz ≤ pr) (hfar : pr < d1)
    (hnear : dz ≤ d2) (hin : d2 ≤ pr)
    (hmem : memLabel src labels = true)
    (hnodup : (labels.map Label.value).Nodup) :
    ((dragMoveEvent poc dz pr
        (dragMoveEvent poc dz pr labels src d1 a1) src d2 a2).map
        Label.value).Perm
      (labels.map Label.value) := by
  have h1 := dragMoveEvent_remove poc dz pr labels src d1 a1
    hdzpr hfar hmem hnodup
  have hout : src.value ∉
      (dragMoveEvent poc dz pr labels src d1 a1).map Label.value := by
    rw [h1]
    intro hcon
    exact ((List.Nodup.mem_erase_iff hnodup).mp hcon).1 rfl
  have hmem2 : memLabel src (dragMoveEvent poc dz pr labels src d1 a1) =
      false := memLabel_eq_false_of_value_not_mem hout
  have h2 := dragMoveEvent_insert poc dz pr
    (dragMoveEvent poc dz pr labels src d1 a1) src d2 a2 hnear hin hmem2
  rw [h2, h1]
  have hsv : src.value ∈ labels.map Label.value := memLabel_value_mem hmem
  exact (List.perm_append_singleton _ _).trans
    (List.perm_cons_erase hsv).symm

end DragReorder

/-! ## Concrete labels for witnesses -/

/-- A concrete label used by witnesses. -/
def labA : Label ℕ ℕ := { value := 1 }

/-- A concrete label used by witnesses. -/
def labB : Label ℕ ℕ := { value := 2, center := (3, 4), angle := 180 }

/-- A concrete geometry function used by witnesses: a point on the
circle as a function of the angle. -/
def pocW : ℚ → Point := fun a => (a, 0)

/-- Witness for C2 exercising all three branches at concrete inputs. -/
theorem C2_drag_move_zones_witness :
    dragMoveEvent pocW 10 100 [labA, labB] labA 5 30 = [labA, labB] ∧
    (dragMoveEvent pocW 10 100 [labA, labB] labA 150 30).map Label.value =
      ([1, 2] : List ℕ).erase 1 ∧
    (dragMoveEvent pocW 10 100 [labB] labA 50 30).map Label.value =
      [2, 1] := by
  refine ⟨(C2_drag_move_zones pocW 10 100 [labA, labB] labA 5 30).1
    (by norm_num), ?_, ?_⟩
  · have h := ((C2_drag_move_zones pocW 10 100 [labA, labB] labA 150 30).2.1
      (by norm_num) (by norm_num) (by decide) (by decide)).1
    simpa [labA, labB] using h
  · have h := (C2_drag_move_zones pocW 10 100 [labB] labA 50 30).2.2
      (by norm_num) (by norm_num) (by decide)
    simpa [labA, labB] using h

/-- Witness for C3 at a concrete out-and-back drag. -/
theorem C3_drag_out_and_back_preserves_membership_witness :
    ((dragMoveEvent pocW 10 100
        (dragMoveEvent pocW 10 100 [labA, labB] labA 150 30) labA 50 60).map
        Label.value).Perm ([labA, labB].map Label.value) :=
  C3_drag_out_and_back_preserves_membership pocW 10 100 [labA, labB] labA
    150 30 50 60 (by norm_num) (by norm_num) (by norm_num) (by norm_num)
    (by decide) (by decide)

/-! ## PieMenu key release (src/shortcut_composer/templates/pie_menu.py)

`PieMenu.on_every_key_release` reads the edit-mode flag and the active
label of the pie widget, and writes through the controller only when not
in edit mode and a label is active.  The active-label computation
(`pie_widget.active`, owned by the label holder) is not under the given
sources, so the active label enters as an `Option` input; the controller
value is the state it mutates, and the returned list logs every
`set_value` call of the handler. -/

section KeyRelease

variable {V D : Type}

/-- `PieMenu.on_every_key_release`: returns the controller value after
the handler and the list of values written through `set_value`. -/
def on_every_key_release (edit_mode : Bool) (active : Option (Label V D))
    (controller_value : V) : V × List V :=
  if edit_mode then (controller_value, [])
  else
    match active with
    | some label => (label.value, [label.value])
    | none => (controller_value, [])

/-- C1: on every key release while not in edit mode, an active candidate
has exactly its value written through the controller, and no candidate
active means no write; in edit mode no controller write happens at all
and the application value is unchanged. -/
theorem C1_key_release_commit (edit_mode : Bool) (active : Option (Label V D))
    (cv : V) :
    (edit_mode = true →
      on_every_key_release edit_mode active cv = (cv, [])) ∧
    (edit_mode = false → ∀ label, active = some label →
      on_every_key_release edit_mode active cv =
        (label.value, [label.value])) ∧
    (edit_mode = false → active = none →
      on_every_key_release edit_mode active cv = (cv, [])) := by
  refine ⟨fun he => ?_, fun he label ha => ?_, fun he ha => ?_⟩
  · simp [on_every_key_release, he]
  · simp [on_every_key_release, he, ha]
  · simp [on_every_key_release, he, ha]

end KeyRelease

/-- Witness for C1 at concrete states: edit mode blocks the write, an
active label commits exactly its value, no active label writes nothing. -/
theorem C1_key_release_commit_witness :
    on_every_key_release true (some labA) 7 = (7, []) ∧
    on_every_key_release false (some labA) 7 = (1, [1]) ∧
    on_every_key_release false (none : Option (Label ℕ ℕ)) 7 = (7, []) :=
  ⟨(C1_key_release_commit true (some labA) 7).1 rfl,
   (C1_key_release_commit false (some labA) 7).2.1 rfl labA rfl,
   (C1_key_release_commit false (none : Option (Label ℕ ℕ)) 7).2.2 rfl rfl⟩

/-! ## Slider session start
(src/shortcut_composer/composer_library/shortcut_templates/slider_utils/slider.py) -/

/-- Modelled from the spec: `create_slider_values` and the cycle object
it returns (`slider_values.py`) are not under the given sources.  Per
the spec, the cycle resolves a value to its index (`index`, raising
`ValueError` when the value is absent, embedded as `Option`) and holds a
designated default (`default_value`) used as the fallback start index. -/
structure SliderValues (V : Type) where
  index : V → Option ℤ
  default_value : ℤ

/-- `Slider.__get_current_value`: the `try`/`except ValueError` around
`self.__to_cycle.index(self.__controller.get_value())`. -/
def get_current_value {V : Type} (to_cycle : SliderValues V)
    (controller_value : V) : ℤ :=
  match to_cycle.index controller_value with
  | some i => i
  | none => to_cycle.default_value

/-- C7: at slider session start, when the current controller value is in
the cycle the start index is its index; when the lookup fails the start
index falls back to the designated default, and the function is total
(no exception escapes). -/
theorem C7_slider_start_value_fallback {V : Type} (to_cycle : SliderValues V)
    (cv : V) :
    (∀ i, to_cycle.index cv = some i →
      get_current_value to_cycle cv = i) ∧
    (to_cycle.index cv = none →
      get_current_value to_cycle cv = to_cycle.default_value) := by
  refine ⟨fun i hi => ?_, fun hn => ?_⟩
  · simp [get_current_value, hi]
  · simp [get_current_value, hn]

/-- Witness for C7 on a concrete two-value cycle. -/
theorem C7_slider_start_value_fallback_witness :
    get_current_value ⟨fun n => if n = 0 then some 5 else none, 9⟩ (0 : ℕ) = 5 ∧
    get_current_value ⟨fun n => if n = 0 then some 5 else none, 9⟩ (1 : ℕ) = 9 :=
  ⟨(C7_slider_start_value_fallback ⟨fun n => if n = 0 then some 5 else none, 9⟩
      (0 : ℕ)).1 5 rfl,
   (C7_slider_start_value_fallback ⟨fun n => if n = 0 then some 5 else none, 9⟩
      (1 : ℕ)).2 rfl⟩

/-! ## PresetPieConfig.values
(src/shortcut_composer/templates/pie_menu_utils/pie_config.py) -/

section PresetConfig

variable {V : Type} [DecidableEq V]

/-- `PresetPieConfig.values`: saved-order entries that are members of
the tag, in saved order, followed by the tag values absent from the
saved order, in tag order. -/
def presetPieValues (saved_order tag_values : List V) : List V :=
  (saved_order.filter (fun p => p ∈ tag_values)) ++
    (tag_values.filter (fun p => p ∉ saved_order))

/-- C9: the preset values property concatenates the in-tag prefix of the
saved order with the tag values missing from the saved order; with both
lists duplicate-free, every tag value occurs exactly once in the result
and nothing outside the tag occurs at all. -/
theorem C9_preset_values_partition (saved_order tag_values : List V)
    (hso : saved_order.Nodup) (htv : tag_values.Nodup) :
    presetPieValues saved_order tag_values =
      (saved_order.filter (fun p => p ∈ tag_values)) ++
        (tag_values.filter (fun p => p ∉ saved_order)) ∧
    (∀ t ∈ tag_values, (presetPieValues saved_order tag_values).count t = 1) ∧
    (∀ x ∈ presetPieValues saved_order tag_values, x ∈ tag_values) := by
  refine ⟨rfl, fun t ht => ?_, fun x hx => ?_⟩
  · rw [presetPieValues, List.count_append]
    by_cases hts : t ∈ saved_order
    · have h1 : (saved_order.filter (fun p => p ∈ tag_values)).count t =
          saved_order.count t := by
        apply List.count_filter
        simpa using ht
      have h2 : (tag_values.filter (fun p => p ∉ saved_order)).count t = 0 := by
        rw [List.count_eq_zero]
        intro hcon
        exact absurd hts (by simpa using (List.mem_filter.mp hcon).2)
      rw [h1, h2, List.count_eq_one_of_mem hso hts]
    · have h1 : (saved_order.filter (fun p => p ∈ tag_values)).count t = 0 := by
        rw [List.count_eq_zero]
        intro hcon
        exact hts (List.mem_filter.mp hcon).1
      have h2 : (tag_values.filter (fun p => p ∉ saved_order)).count t =
          tag_values.count t := by
        apply List.count_filter
        simpa using hts
      rw [h1, h2, List.count_eq_one_of_mem htv ht]
  · rw [presetPieValues] at hx
    rcases List.mem_append.mp hx with hx | hx
    · simpa using (List.mem_filter.mp hx).2
    · exact (List.mem_filter.mp hx).1

end PresetConfig

/-- Witness for C9 on concrete saved order and tag lists. -/
theorem C9_preset_values_partition_witness :
    presetPieValues ([3, 1, 4] : List ℕ) [1, 2, 3] = [3, 1] ++ [2] ∧
    (∀ t ∈ ([1, 2, 3] : List ℕ), (presetPieValues [3, 1, 4] [1, 2, 3]).count t = 1) ∧
    (∀ x ∈ presetPieValues ([3, 1, 4] : List ℕ) [1, 2, 3], x ∈ ([1, 2, 3] : List ℕ)) := by
  have h := C9_preset_values_partition ([3, 1, 4] : List ℕ) [1, 2, 3]
    (by decide) (by decide)
  exact ⟨by decide, h.2.1, h.2.2⟩

/-! ## PieMenu label recomputation
(src/shortcut_composer/templates/pie_menu.py)

`PieMenu._reset_labels` filters the configured values through the
process-wide `INVALID_VALUES` exclusion set, returns early when the
filtered values already match the current labels, and otherwise rebuilds
the label list querying the controller for every configured value,
excluding the values whose `get_label` is null.  The controller is the
external collaborator of the spec, embedded as a function record; the
returned list logs the values for which `get_label` was queried. -/

section ResetLabels

variable {V D : Type} [DecidableEq V]

/-- The controller interface consumed by the pie menu. -/
structure Controller (V D : Type) where
  get_label : V → Option D
  get_pretty_name : V → String

/-- `Label.from_value`: build a label for a value, or nothing when the
controller has no display token for it. -/
def Label.from_value (ctl : Controller V D) (sleep_time : ℚ) (v : V) :
    Option (Label V D) :=
  match ctl.get_label v with
  | none => none
  | some d =>
      some { value := v, displayValue := some d,
             prettyName := ctl.get_pretty_name v,
             activationProgress := mkAnimationProgress sleep_time 1 1 }

/-- The state read and written by `_reset_labels`: the label list and
the process-wide `INVALID_VALUES` class attribute. -/
structure PieMenuState (V D : Type) where
  labels : List (Label V D)
  invalid_values : Finset V

/-- The rebuild loop `for value in values: ...` of `_reset_labels`,
starting from a cleared label list. -/
def resetLoop (ctl : Controller V D) (sleep_time : ℚ) :
    List V → PieMenuState V D → PieMenuState V D
  | [], st => st
  | v :: rest, st =>
      match Label.from_value ctl sleep_time v with
      | some lbl =>
          resetLoop ctl sleep_time rest ⟨st.labels ++ [lbl], st.invalid_values⟩
      | none =>
          resetLoop ctl sleep_time rest ⟨st.labels, insert v st.invalid_values⟩

/-- `PieMenu._reset_labels`.  The second component is the list of values
for which `controller.get_label` was queried: empty on the early return,
every configured value when the rebuild loop runs. -/
def reset_labels (ctl : Controller V D) (sleep_time : ℚ)
    (st : PieMenuState V D) (values : List V) : PieMenuState V D × List V :=
  if values.filter (fun v => v ∉ st.invalid_values) = st.labels.map Label.value
  then (st, [])
  else (resetLoop ctl sleep_time values ⟨[], st.invalid_values⟩, values)

/-- The rebuild loop appends exactly the labels of the values the
controller can display. -/
lemma resetLoop_labels (ctl : Controller V D) (sleep_time : ℚ) :
    ∀ (vs : List V) (st : PieMenuState V D),
      (resetLoop ctl sleep_time vs st).labels =
        st.labels ++ vs.filterMap (Label.from_value ctl sleep_time) := by
  intro vs
  induction vs with
  | nil => intro st; simp [resetLoop]
  | cons v rest ih =>
      intro st
      cases h : Label.from_value ctl sleep_time v with
      | none => simp [resetLoop, h, ih]
      | some lbl => simp [resetLoop, h, ih]

/-- Membership in the exclusion set after the rebuild loop. -/
lemma resetLoop_invalid_mem (ctl : Controller V D) (sleep_time : ℚ) :
    ∀ (vs : List V) (st : PieMenuState V D) (x : V),
      x ∈ (resetLoop ctl sleep_time vs st).invalid_values ↔
        x ∈ st.invalid_values ∨ (x ∈ vs ∧ ctl.get_label x = none) := by
  intro vs
  induction vs with
  | nil => intro st x; simp [resetLoop]
  | cons v rest ih =>
      intro st x
      cases h : ctl.get_label v with
      | some d =>
          have hfv : Label.from_value ctl sleep_time v =
              some { value := v, displayValue := some d,
                     prettyName := ctl.get_pretty_name v,
                     activationProgress := mkAnimationProgress sleep_time 1 1 } := by
            simp [Label.from_value, h]
          rw [resetLoop, hfv]
          rw [ih]
          constructor
          · rintro (hx | ⟨hx1, hx2⟩)
            · exact Or.inl hx
            · exact Or.inr ⟨List.mem_cons_of_mem v hx1, hx2⟩
          · rintro (hx | ⟨hx1, hx2⟩)
            · exact Or.inl hx
            · rcases List.mem_cons.mp hx1 with rfl | hx1
              · rw [h] at hx2
                cases hx2
              · exact Or.inr ⟨hx1, hx2⟩
      | none =>
          have hfv : Label.from_value ctl sleep_time v = none := by
            simp [Label.from_value, h]
          rw [resetLoop, hfv]
          rw [ih]
          simp only [Finset.mem_insert]
          constructor
          · rintro ((rfl | hx) | ⟨hx1, hx2⟩)
            · exact Or.inr ⟨List.mem_cons_self _ _, h⟩
            · exact Or.inl hx
            · exact Or.inr ⟨List.mem_cons_of_mem v hx1, hx2⟩
          · rintro (hx | ⟨hx1, hx2⟩)
            · exact Or.inl (Or.inr hx)
            · rcases List.mem_cons.mp hx1 with rfl | hx1
              · exact Or.inl (Or.inl rfl)
              · exact Or.inr ⟨hx1, hx2⟩

/-- The value sequence of the rebuilt labels is the sub-sequence of the
configured values the controller can display. -/
lemma filterMap_from_value_map_value (ctl : Controller V D) (sleep_time : ℚ) :
    ∀ vs : List V,
      (vs.filterMap (Label.from_value ctl sleep_time)).map Label.value =
        vs.filter (fun v => (ctl.get_label v).isSome) := by
  intro vs
  induction vs with
  | nil => rfl
  | cons v rest ih =>
      cases h : ctl.get_label v with
      | none => simp [Label.from_value, h, ih]
      | some d => simp [Label.from_value, h, ih]

/-- After one recomputation whose pre-existing exclusions are all
undisplayable, a second recomputation with the same values returns early:
same state, no controller query. -/
lemma reset_labels_second_call (ctl : Controller V D) (sleep_time : ℚ)
    (st : PieMenuState V D) (values : List V)
    (hinv : ∀ v ∈ values, v ∈ st.invalid_values → ctl.get_label v = none) :
    reset_labels ctl sleep_time (reset_labels ctl sleep_time st values).1
        values =
      ((reset_labels ctl sleep_time st values).1, []) := by
  by_cases hc : values.filter (fun v => v ∉ st.invalid_values) =
      st.labels.map Label.value
  · have h1 : reset_labels ctl sleep_time st values = (st, []) := by
      unfold reset_labels
      rw [if_pos hc]
    rw [h1, h1]
  · have hres : (reset_labels ctl sleep_time st values).1 =
        resetLoop ctl sleep_time values ⟨[], st.invalid_values⟩ := by
      unfold reset_labels
      rw [if_neg hc]
    rw [hres]
    have hcond : values.filter (fun v =>
          v ∉ (resetLoop ctl sleep_time values
            ⟨[], st.invalid_values⟩).invalid_values) =
        (resetLoop ctl sleep_time values
            ⟨[], st.invalid_values⟩).labels.map Label.value := by
      rw [resetLoop_labels]
      simp only [List.nil_append]
      rw [filterMap_from_value_map_value]
      apply List.filter_congr
      intro v hv
      cases hgl : ctl.get_label v with
      | none =>
          have hmem : v ∈ (resetLoop ctl sleep_time values
              ⟨[], st.invalid_values⟩).invalid_values :=
            (resetLoop_invalid_mem ctl sleep_time values _ v).mpr
              (Or.inr ⟨hv, hgl⟩)
          simp [hmem, hgl]
      | some d =>
          have hmem : v ∉ (resetLoop ctl sleep_time values
              ⟨[], st.invalid_values⟩).invalid_values := by
            rw [resetLoop_invalid_mem]
            rintro (hx | ⟨_, hx2⟩)
            · rw [hinv v hv hx] at hgl
              cases hgl
            · rw [hx2] at hgl
              cases hgl
          simp [hmem, hgl]
    unfold reset_labels
    rw [if_pos hcond]

/-- C8: the exclusion set only grows under recomputation, and once a
recomputation has recorded the undisplayable values, recomputing with
the same configured list returns early: the label list is left unchanged
and no `get_label` query is issued at all, in particular none for any
excluded value. -/
theorem C8_invalid_values_monotone_and_cached (ctl : Controller V D)
    (sleep_time : ℚ) (st : PieMenuState V D) (values : List V) :
    st.invalid_values ⊆
      (reset_labels ctl sleep_time st values).1.invalid_values ∧
    ((∀ v ∈ values, v ∈ st.invalid_values → ctl.get_label v = none) →
      reset_labels ctl sleep_time (reset_labels ctl sleep_time st values).1
          values =
        ((reset_labels ctl sleep_time st values).1, [])) := by
  constructor
  · by_cases hc : values.filter (fun v => v ∉ st.invalid_values) =
        st.labels.map Label.value
    · have h1 : reset_labels ctl sleep_time st values = (st, []) := by
        unfold reset_labels
        rw [if_pos hc]
      rw [h1]
    · have hres : (reset_labels ctl sleep_time st values).1 =
          resetLoop ctl sleep_time values ⟨[], st.invalid_values⟩ := by
        unfold reset_labels
        rw [if_neg hc]
      rw [hres]
      intro x hx
      exact (resetLoop_invalid_mem ctl sleep_time values _ x).mpr (Or.inl hx)
  · exact reset_labels_second_call ctl sleep_time st values

/-- C10: with the controller display lookup a fixed function and every
configured value already excluded being undisplayable, recomputing twice
equals recomputing once: the second call returns early with the label
list and the exclusion set unchanged and issues no query. -/
theorem C10_reset_labels_idempotent (ctl : Controller V D)
    (sleep_time : ℚ) (st : PieMenuState V D) (values : List V)
    (hinv : ∀ v ∈ values, v ∈ st.invalid_values → ctl.get_label v = none) :
    reset_labels ctl sleep_time (reset_labels ctl sleep_time st values).1
        values =
      ((reset_labels ctl sleep_time st values).1, []) :=
  reset_labels_second_call ctl sleep_time st values hinv

end ResetLabels

/-- A concrete controller for witnesses: value 2 has no display token. -/
def ctlW : Controller ℕ ℕ :=
  ⟨fun v => if v = 2 then none else some v, fun _ => "name"⟩

/-- Witness for C8 at a concrete controller and state. -/
theorem C8_invalid_values_monotone_and_cached_witness :
    (⟨[], ∅⟩ : PieMenuState ℕ ℕ).invalid_values ⊆
      (reset_labels ctlW 50 ⟨[], ∅⟩ [1, 2, 3]).1.invalid_values ∧
    reset_labels ctlW 50 (reset_labels ctlW 50 ⟨[], ∅⟩ [1, 2, 3]).1 [1, 2, 3] =
      ((reset_labels ctlW 50 ⟨[], ∅⟩ [1, 2, 3]).1, []) := by
  have h := C8_invalid_values_monotone_and_cached ctlW 50 ⟨[], ∅⟩ [1, 2, 3]
  exact ⟨h.1, h.2 (by decide)⟩

/-- Witness for C10 at a concrete controller, with a non-empty starting
exclusion set consistent with the controller. -/
theorem C10_reset_labels_idempotent_witness :
    reset_labels ctlW 50 (reset_labels ctlW 50 ⟨[], {2}⟩ [1, 2, 4]).1 [1, 2, 4] =
      ((reset_labels ctlW 50 ⟨[], {2}⟩ [1, 2, 4]).1, []) :=
  C10_reset_labels_idempotent ctlW 50 ⟨[], {2}⟩ [1, 2, 4] (by decide)

end ShortcutComposer
